import Mathlib

/-!
Verification development for `src/utils/reconstruction.py` of the
`EnricoPittini/ml4cv-project` repository: the reverse (denoising) sampling
algorithms of a diffusion model.  Samples are embedded pointwise as real-valued
functions over an abstract pixel-index type; the stochastic draws of
`torch.randn` are passed in explicitly as an argument `z`; the exact real
arithmetic stands in for floating point.
-/

namespace Reconstruction

/-- One dense numeric array (an image), stored pointwise over a pixel-index type. -/
def Sample (ι : Type) : Type := ι → ℝ

/-- Black-box noise predictor (`net` in the source): maps the current sample and a
timestep to a predicted-noise sample of the same shape. -/
def Predictor (ι : Type) : Type := Sample ι → ℕ → Sample ι

/-- Pointwise clamp to the interval [0,1], as numpy's and torch's `clip(0, 1)`. -/
noncomputable def clip01 (v : ℝ) : ℝ := max 0 (min 1 v)

/-- Modelled from the spec: `get_alpha_bar` is imported from
`utils.diffusionDataset`, which is not among the given sources.  Per the spec,
`alpha_bar[0] = 1` and `alpha_bar[t] = alpha_bar[t-1] * (1 - beta[t])`, with the
variance schedule indexed 1-based (index 0 a sentinel slot). -/
noncomputable def get_alpha_bar (beta : ℕ → ℝ) : ℕ → ℝ
  | 0 => 1
  | t + 1 => get_alpha_bar beta t * (1 - beta (t + 1))

/-- `reconstruct_image_from_noise` (reconstruction.py, line 25).  The source's
`.clip(0, 1)` binds to the scalar `np.sqrt(alpha_bar)`, not to the whole
expression, exactly as transcribed here. -/
noncomputable def reconstruct_image_from_noise (noisy_image noise : Sample ι)
    (t : ℕ) (beta : ℕ → ℝ) : Sample ι :=
  fun idx =>
    (noisy_image idx - noise idx * Real.sqrt (1 - get_alpha_bar beta t)) /
      clip01 (Real.sqrt (get_alpha_bar beta t))

/-- `reconstruct_single_step` (reconstruction.py, lines 51-77): one direct jump
estimate from the predicted noise at timestep `t`, clipped to [0,1] on return. -/
noncomputable def reconstruct_single_step (net : Predictor ι)
    (noisy_image : Sample ι) (t : ℕ) (beta : ℕ → ℝ) : Sample ι :=
  let pred_noise := net noisy_image t
  fun idx =>
    clip01 ((noisy_image idx - pred_noise idx * Real.sqrt (1 - get_alpha_bar beta t)) /
      clip01 (Real.sqrt (get_alpha_bar beta t)))

/-- Runtime failures of the samplers.  `indexError` models the numpy `IndexError`
raised by `reconstructions[0] = ...` when the preallocated buffer has zero
length (`t // step_size == 0`); `nameError` models Python's `NameError` at the
`del t_tensor` statement when the sampling loop ran zero iterations, so
`t_tensor` was never bound. -/
inductive RecError : Type
  | indexError
  | nameError
deriving DecidableEq

/-- Return value of `reconstruct`: the final sample (3D array) or, when
`return_sequences` is set, the quantized uint8 trajectory (4D array). -/
inductive RecResult (ι : Type) : Type
  | final (sample : Sample ι)
  | seqs (frames : List (ι → ℕ))

/-- Truncation toward zero, as the C cast behind numpy's `astype`. -/
noncomputable def trunc (v : ℝ) : ℤ := if 0 ≤ v then ⌊v⌋ else ⌈v⌉

/-- Quantization of one scalar to an 8-bit unsigned integer as
`astype(np.uint8)`: truncation to an integer, wrapped modulo 256. -/
noncomputable def toU8 (v : ℝ) : ℕ := (trunc v % 256).toNat

/-- A stored trajectory frame: `(x * 255).astype(np.uint8)`, no clamping. -/
noncomputable def quantRaw (x : Sample ι) : ι → ℕ := fun idx => toU8 (x idx * 255)

/-- A stored trajectory frame: `(x.clip(0, 1) * 255).astype(np.uint8)`. -/
noncomputable def quantClip (x : Sample ι) : ι → ℕ :=
  fun idx => toU8 (clip01 (x idx) * 255)

/-- One ancestral (unit) denoising update (reconstruction.py, line 203):
`x = (x - pred*beta[ti]/sqrt(1-alpha_bar[ti]))/sqrt(1-beta[ti]) + sigma[ti]*randn`. -/
noncomputable def unitStep (net : Predictor ι) (beta : ℕ → ℝ) (sigma : ℕ → ℝ)
    (z : ℕ → Sample ι) (x : Sample ι) (ti : ℕ) : Sample ι :=
  let pred_noise := net x ti
  fun idx =>
    (x idx - pred_noise idx * beta ti / Real.sqrt (1 - get_alpha_bar beta ti)) /
        Real.sqrt (1 - beta ti) +
      sigma ti * z ti idx

/-- Timesteps visited by the sequential sampler's loop (line 199):
`reversed(range(1, t))`. -/
def seqTimesteps (t : ℕ) : List ℕ := (List.range' 1 (t - 1)).reverse

/-- `reconstruct_sequentially` (reconstruction.py, lines 154-208).  When the loop
body never runs (`t <= 1`), `del t_tensor` raises a `NameError`. -/
noncomputable def reconstruct_sequentially (net : Predictor ι)
    (noisy_image : Sample ι) (t : ℕ) (beta : ℕ → ℝ) (sigma : ℕ → ℝ)
    (z : ℕ → Sample ι) : Except RecError (Sample ι) :=
  if t ≤ 1 then .error .nameError
  else
    .ok (fun idx =>
      clip01 (((seqTimesteps t).foldl (unitStep net beta sigma z) noisy_image) idx))

/-- One strided denoising update (reconstruction.py, lines 140-141):
`f = alpha_bar[ti]/alpha_bar[ti-step_size]` and
`x = (x - (1+overstep)*pred*(1-f)/sqrt(1-alpha_bar[ti]))/sqrt(f) + sigma[ti]*randn`. -/
noncomputable def stridedStep (net : Predictor ι) (beta : ℕ → ℝ)
    (step_size : ℕ) (overstep : ℝ) (sigma : ℕ → ℝ) (z : ℕ → Sample ι)
    (x : Sample ι) (ti : ℕ) : Sample ι :=
  let pred_noise := net x ti
  let f := get_alpha_bar beta ti / get_alpha_bar beta (ti - step_size)
  fun idx =>
    (x idx -
        (1 + overstep) * pred_noise idx * (1 - f) /
          Real.sqrt (1 - get_alpha_bar beta ti)) /
        Real.sqrt f +
      sigma ti * z ti idx

/-- Timesteps visited by the strided sampler's loop (lines 134-135):
`ti = i*step_size` for `i` in `reversed(range(1, t//step_size))`. -/
def stridedTimesteps (t step_size : ℕ) : List ℕ :=
  ((List.range' 1 (t / step_size - 1)).reverse).map (fun i => i * step_size)

/-- Loop body of `reconstruct`: evolve the sample and append the quantized,
clipped snapshot of the new state (line 144) to the stored frames. -/
noncomputable def stridedRun (net : Predictor ι) (beta : ℕ → ℝ) (step_size : ℕ)
    (overstep : ℝ) (sigma : ℕ → ℝ) (z : ℕ → Sample ι)
    (start : Sample ι × List (ι → ℕ)) (tsteps : List ℕ) :
    Sample ι × List (ι → ℕ) :=
  tsteps.foldl
    (fun acc ti =>
      let x := stridedStep net beta step_size overstep sigma z acc.1 ti
      (x, acc.2 ++ [quantClip x]))
    start

/-- Successive samples produced by the strided loop, in iteration order. -/
noncomputable def stridedStates (net : Predictor ι) (beta : ℕ → ℝ)
    (step_size : ℕ) (overstep : ℝ) (sigma : ℕ → ℝ) (z : ℕ → Sample ι) :
    Sample ι → List ℕ → List (Sample ι)
  | _, [] => []
  | x, ti :: rest =>
      let xNew := stridedStep net beta step_size overstep sigma z x ti
      xNew :: stridedStates net beta step_size overstep sigma z xNew rest

/-- `reconstruct` (reconstruction.py, lines 80-151).  The preallocated trajectory
buffer has `t // step_size` frames; frame 0 is the raw input quantized without
clamping (lines 128, 131); the loop fills the remaining frames with clipped
quantized snapshots; the final sample is clipped to [0,1] on return (line 151). -/
noncomputable def reconstruct (net : Predictor ι) (noisy_image : Sample ι)
    (t : ℕ) (beta : ℕ → ℝ) (step_size : ℕ) (overstep : ℝ) (sigma : ℕ → ℝ)
    (return_sequences : Bool) (z : ℕ → Sample ι) :
    Except RecError (RecResult ι) :=
  if t / step_size = 0 then .error .indexError
  else if t / step_size = 1 then .error .nameError
  else
    let run := stridedRun net beta step_size overstep sigma z
      (noisy_image, [quantRaw noisy_image]) (stridedTimesteps t step_size)
    if return_sequences then .ok (.seqs run.2)
    else .ok (.final fun idx => clip01 (run.1 idx))

/-! ### Basic lemmas about the schedule transform and the clamps -/

theorem clip01_nonneg (v : ℝ) : 0 ≤ clip01 v := le_max_left 0 _

theorem clip01_le_one (v : ℝ) : clip01 v ≤ 1 :=
  max_le zero_le_one (min_le_left 1 v)

theorem clip01_eq_self {v : ℝ} (h0 : 0 ≤ v) (h1 : v ≤ 1) : clip01 v = v := by
  unfold clip01
  rw [min_eq_right h1, max_eq_right h0]

theorem get_alpha_bar_pos {beta : ℕ → ℝ} (hb : ∀ i, beta i < 1) :
    ∀ t, 0 < get_alpha_bar beta t := by
  intro t
  induction t with
  | zero => exact one_pos
  | succ k ih =>
      have h1 : 0 < 1 - beta (k + 1) := by have := hb (k + 1); linarith
      exact mul_pos ih h1

theorem get_alpha_bar_le_one {beta : ℕ → ℝ} (hb0 : ∀ i, 0 ≤ beta i)
    (hb1 : ∀ i, beta i < 1) : ∀ t, get_alpha_bar beta t ≤ 1 := by
  intro t
  induction t with
  | zero => exact le_refl 1
  | succ k ih =>
      have hpos : 0 < get_alpha_bar beta k := get_alpha_bar_pos hb1 k
      calc get_alpha_bar beta k * (1 - beta (k + 1)) ≤ 1 * 1 := by
            apply mul_le_mul ih (by have := hb0 (k + 1); linarith)
              (by have := hb1 (k + 1); linarith) zero_le_one
        _ = 1 := one_mul 1

theorem get_alpha_bar_succ (beta : ℕ → ℝ) (k : ℕ) :
    get_alpha_bar beta (k + 1) = get_alpha_bar beta k * (1 - beta (k + 1)) := rfl

/-! ### Lemmas about the loop-timestep lists -/

theorem mem_seqTimesteps {t ti : ℕ} : ti ∈ seqTimesteps t ↔ 1 ≤ ti ∧ ti < t := by
  unfold seqTimesteps
  rw [List.mem_reverse, List.mem_range'_1]
  omega

theorem seqTimesteps_nodup (t : ℕ) : (seqTimesteps t).Nodup :=
  (List.nodup_reverse).mpr (List.nodup_range' _ _)

theorem stridedTimesteps_one (t : ℕ) : stridedTimesteps t 1 = seqTimesteps t := by
  unfold stridedTimesteps seqTimesteps
  rw [Nat.div_one]
  simp

/-! ### Lemmas decomposing the strided loop -/

theorem stridedRun_fst (net : Predictor ι) (beta : ℕ → ℝ) (step_size : ℕ)
    (overstep : ℝ) (sigma : ℕ → ℝ) (z : ℕ → Sample ι) :
    ∀ (tsteps : List ℕ) (x : Sample ι) (fs : List (ι → ℕ)),
      (stridedRun net beta step_size overstep sigma z (x, fs) tsteps).1 =
        tsteps.foldl (stridedStep net beta step_size overstep sigma z) x := by
  intro tsteps
  induction tsteps with
  | nil => intro x fs; rfl
  | cons ti rest ih =>
      intro x fs
      simp only [stridedRun, List.foldl_cons] at *
      exact ih _ _

theorem stridedRun_snd (net : Predictor ι) (beta : ℕ → ℝ) (step_size : ℕ)
    (overstep : ℝ) (sigma : ℕ → ℝ) (z : ℕ → Sample ι) :
    ∀ (tsteps : List ℕ) (x : Sample ι) (fs : List (ι → ℕ)),
      (stridedRun net beta step_size overstep sigma z (x, fs) tsteps).2 =
        fs ++ (stridedStates net beta step_size overstep sigma z x tsteps).map
          quantClip := by
  intro tsteps
  induction tsteps with
  | nil => intro x fs; simp [stridedRun, stridedStates]
  | cons ti rest ih =>
      intro x fs
      simp only [stridedRun, List.foldl_cons, stridedStates, List.map_cons] at *
      rw [ih _ _]
      simp

theorem foldl_congr_mem {α β : Type _} (f g : α → β → α) :
    ∀ l : List β, (∀ b ∈ l, ∀ a, f a b = g a b) →
      ∀ a, List.foldl f a l = List.foldl g a l := by
  intro l
  induction l with
  | nil => intro _ a; rfl
  | cons b rest ih =>
      intro h a
      simp only [List.foldl_cons]
      rw [h b (List.mem_cons_self b rest) a]
      exact ih (fun x hx a' => h x (List.mem_cons_of_mem b hx) a') _

/-! ### Claim theorems -/

/-- Claim C2 (code_bug evidence): calling the unified sampler `reconstruct` with
`step_size = t` makes the loop `reversed(range(1, t//step_size))` empty, so
`del t_tensor` raises a NameError instead of returning the single-step estimate
that `reconstruct_single_step` computes. -/
theorem claim2_single_step_mode_raises (ι : Type) (net : Predictor ι)
    (noisy : Sample ι) (beta : ℕ → ℝ) (ov : ℝ) (sigma : ℕ → ℝ) (rs : Bool)
    (z : ℕ → Sample ι) (t : ℕ) (ht : 1 ≤ t) :
    reconstruct net noisy t beta t ov sigma rs z = .error .nameError := by
  have hd : t / t = 1 := Nat.div_self ht
  unfold reconstruct
  rw [hd]
  simp

/-- Witness for C2 at the concrete failing input `t = 10`, `step_size = 10`. -/
theorem claim2_witness :
    (1:ℕ) ≤ 10 ∧
      reconstruct (ι := Unit) (fun _ _ => fun _ => 0) (fun _ => 1/2) 10
          (fun _ => 1/100) 10 (1/2) (fun _ => 0) false (fun _ _ => 0) =
        .error .nameError :=
  ⟨by norm_num,
    claim2_single_step_mode_raises Unit _ _ _ _ _ _ _ 10 (by norm_num)⟩

/-- Claim C6 (amended): the fully-sequential sampler iterates over exactly the
timesteps `start_t - 1` down to `1`, each once, in strictly decreasing order;
the noise predictor is never invoked at `start_t` itself. -/
theorem claim6_loop_timesteps_amended (t : ℕ) :
    (∀ ti, ti ∈ seqTimesteps t ↔ 1 ≤ ti ∧ ti < t) ∧
      List.Pairwise (· > ·) (seqTimesteps t) ∧ t ∉ seqTimesteps t := by
  refine ⟨fun ti => mem_seqTimesteps, ?_, ?_⟩
  · unfold seqTimesteps
    rw [List.pairwise_reverse]
    exact List.pairwise_lt_range' _ _
  · intro h
    have := mem_seqTimesteps.mp h
    omega

/-- Counterexample to C6 as stated: with `start_t = 2` the sequential loop is
`[1]` only — the unit update is never applied at timestep `start_t = 2`, and the
whole run is a single `unitStep` at timestep 1. -/
theorem claim6_counterexample :
    seqTimesteps 2 = [1] ∧ 2 ∉ seqTimesteps 2 ∧
      reconstruct_sequentially (ι := Unit) (fun x _ => x) (fun _ => 0) 2
          (fun _ => 1/2) (fun _ => 0) (fun _ _ => 0) =
        .ok (fun idx =>
          clip01 ((unitStep (fun x _ => x) (fun _ => 1/2) (fun _ => 0)
            (fun _ _ => 0) (fun _ => 0) 1) idx)) :=
  ⟨by decide, by decide, rfl⟩

/-- Claim C7: with `step_size > start_t` the preallocated buffer has zero frames
and `reconstruct` fails with the out-of-range index error; and every timestep
the unit-rule path looks up in the schedule is at least 1, so a lookup at a
zero or negative timestep never occurs (the claimed failure is vacuous). -/
theorem claim7_boundary_errors :
    (∀ (ι : Type) (net : Predictor ι) (noisy : Sample ι) (t : ℕ) (beta : ℕ → ℝ)
        (s : ℕ) (ov : ℝ) (sigma : ℕ → ℝ) (rs : Bool) (z : ℕ → Sample ι),
        t < s → reconstruct net noisy t beta s ov sigma rs z = .error .indexError) ∧
      ∀ t ti : ℕ, ti ∈ seqTimesteps t → 1 ≤ ti := by
  constructor
  · intro ι net noisy t beta s ov sigma rs z hts
    have hd : t / s = 0 := Nat.div_eq_of_lt hts
    unfold reconstruct
    rw [hd]
    simp
  · intro t ti hmem
    exact (mem_seqTimesteps.mp hmem).1

/-- Witness for C7 at concrete inputs: `start_t = 1 < step_size = 2` errors, and
the concrete loop timestep `2 ∈ seqTimesteps 3` is at least 1. -/
theorem claim7_witness :
    ((1:ℕ) < 2 ∧
        reconstruct (ι := Unit) (fun _ _ => fun _ => 0) (fun _ => 1/2) 1
            (fun _ => 1/100) 2 (1/2) (fun _ => 0) false (fun _ _ => 0) =
          .error .indexError) ∧
      (2 ∈ seqTimesteps 3 ∧ (1:ℕ) ≤ 2) :=
  ⟨⟨by norm_num,
      claim7_boundary_errors.1 Unit _ _ 1 _ 2 _ _ _ _ (by norm_num)⟩,
    ⟨by decide, claim7_boundary_errors.2 3 2 (by decide)⟩⟩

theorem stridedStep_zero_sigma (net : Predictor ι) (beta : ℕ → ℝ) (s : ℕ)
    (ov : ℝ) (z z' : ℕ → Sample ι) (x : Sample ι) (ti : ℕ) :
    stridedStep net beta s ov (fun _ => 0) z x ti =
      stridedStep net beta s ov (fun _ => 0) z' x ti := by
  funext idx
  simp [stridedStep]

theorem unitStep_zero_sigma (net : Predictor ι) (beta : ℕ → ℝ)
    (z z' : ℕ → Sample ι) (x : Sample ι) (ti : ℕ) :
    unitStep net beta (fun _ => 0) z x ti =
      unitStep net beta (fun _ => 0) z' x ti := by
  funext idx
  simp [unitStep]

/-- Claim C8: with sigma identically zero, both samplers are deterministic — the
output does not depend on the values drawn from the random source. -/
theorem claim8_zero_sigma_deterministic (ι : Type) (net : Predictor ι)
    (noisy : Sample ι) (t : ℕ) (beta : ℕ → ℝ) (s : ℕ) (ov : ℝ) (rs : Bool)
    (z z' : ℕ → Sample ι) :
    reconstruct net noisy t beta s ov (fun _ => 0) rs z =
        reconstruct net noisy t beta s ov (fun _ => 0) rs z' ∧
      reconstruct_sequentially net noisy t beta (fun _ => 0) z =
        reconstruct_sequentially net noisy t beta (fun _ => 0) z' := by
  constructor
  · have hrun :
        stridedRun net beta s ov (fun _ => 0) z (noisy, [quantRaw noisy])
            (stridedTimesteps t s) =
          stridedRun net beta s ov (fun _ => 0) z' (noisy, [quantRaw noisy])
            (stridedTimesteps t s) := by
      unfold stridedRun
      apply foldl_congr_mem
      intro ti _ acc
      rw [stridedStep_zero_sigma net beta s ov z z' acc.1 ti]
    simp only [reconstruct]
    rw [hrun]
  · have hfold :
        (seqTimesteps t).foldl (unitStep net beta (fun _ => 0) z) noisy =
          (seqTimesteps t).foldl (unitStep net beta (fun _ => 0) z') noisy := by
      apply foldl_congr_mem
      intro ti _ x
      exact unitStep_zero_sigma net beta z z' x ti
    simp only [reconstruct_sequentially]
    rw [hfold]

/-- Claim C4 (amended): the final sample of `reconstruct_single_step`, of
`reconstruct` on its non-trajectory success path, and of
`reconstruct_sequentially` lies entirely within [0,1]; `reconstruct_image_from_noise`
is excluded because its clip binds to the denominator, not the result. -/
theorem claim4_output_clamped_amended :
    (∀ (ι : Type) (net : Predictor ι) (noisy : Sample ι) (t : ℕ)
        (beta : ℕ → ℝ) (idx : ι),
        0 ≤ reconstruct_single_step net noisy t beta idx ∧
          reconstruct_single_step net noisy t beta idx ≤ 1) ∧
      (∀ (ι : Type) (net : Predictor ι) (noisy : Sample ι) (t : ℕ)
          (beta : ℕ → ℝ) (s : ℕ) (ov : ℝ) (sigma : ℕ → ℝ) (z : ℕ → Sample ι),
          2 ≤ t / s →
          ∃ out, reconstruct net noisy t beta s ov sigma false z =
              .ok (.final out) ∧ ∀ idx, 0 ≤ out idx ∧ out idx ≤ 1) ∧
      ∀ (ι : Type) (net : Predictor ι) (noisy : Sample ι) (t : ℕ)
          (beta : ℕ → ℝ) (sigma : ℕ → ℝ) (z : ℕ → Sample ι),
          2 ≤ t →
          ∃ out, reconstruct_sequentially net noisy t beta sigma z = .ok out ∧
            ∀ idx, 0 ≤ out idx ∧ out idx ≤ 1 := by
  refine ⟨?_, ?_, ?_⟩
  · intro ι net noisy t beta idx
    simp only [reconstruct_single_step]
    exact ⟨clip01_nonneg _, clip01_le_one _⟩
  · intro ι net noisy t beta s ov sigma z hts
    have h0 : ¬ t / s = 0 := by omega
    have h1 : ¬ t / s = 1 := by omega
    simp only [reconstruct, if_neg h0, if_neg h1, Bool.false_eq_true, if_false]
    exact ⟨_, rfl, fun idx => ⟨clip01_nonneg _, clip01_le_one _⟩⟩
  · intro ι net noisy t beta sigma z ht
    have h1 : ¬ t ≤ 1 := by omega
    simp only [reconstruct_sequentially, if_neg h1]
    exact ⟨_, rfl, fun idx => ⟨clip01_nonneg _, clip01_le_one _⟩⟩

/-- Counterexample to C4 as stated: `reconstruct_image_from_noise` applied to
the constant sample 2 with zero noise at `t = 0` returns 2, outside [0,1] —
the source's `.clip(0, 1)` attaches to `np.sqrt(alpha_bar)`, not the result. -/
theorem claim4_counterexample :
    1 < reconstruct_image_from_noise (ι := Unit) (fun _ => 2) (fun _ => 0) 0
        (fun _ => 1/100) () := by
  have h0 : get_alpha_bar (fun _ => (1/100:ℝ)) 0 = 1 := rfl
  simp only [reconstruct_image_from_noise, h0]
  rw [Real.sqrt_one]
  rw [clip01_eq_self zero_le_one le_rfl]
  norm_num

/-- Witness for C4 at concrete inputs reaching each success path. -/
theorem claim4_witness :
    (0 ≤ reconstruct_single_step (ι := Unit) (fun _ _ => fun _ => 0)
          (fun _ => 1/2) 1 (fun _ => 1/100) () ∧
        reconstruct_single_step (ι := Unit) (fun _ _ => fun _ => 0)
            (fun _ => 1/2) 1 (fun _ => 1/100) () ≤ 1) ∧
      ((2:ℕ) ≤ 4 / 2 ∧
        ∃ out, reconstruct (ι := Unit) (fun _ _ => fun _ => 0) (fun _ => 1/2) 4
              (fun _ => 1/100) 2 (1/2) (fun _ => 0) false (fun _ _ => 0) =
            .ok (.final out) ∧ ∀ idx, 0 ≤ out idx ∧ out idx ≤ 1) ∧
      ((2:ℕ) ≤ 3 ∧
        ∃ out, reconstruct_sequentially (ι := Unit) (fun _ _ => fun _ => 0)
              (fun _ => 1/2) 3 (fun _ => 1/100) (fun _ => 0) (fun _ _ => 0) =
            .ok out ∧ ∀ idx, 0 ≤ out idx ∧ out idx ≤ 1) :=
  ⟨claim4_output_clamped_amended.1 Unit _ _ _ _ (),
    ⟨by norm_num,
      claim4_output_clamped_amended.2.1 Unit _ _ 4 _ 2 _ _ _ (by norm_num)⟩,
    ⟨by norm_num,
      claim4_output_clamped_amended.2.2 Unit _ _ 3 _ _ _ (by norm_num)⟩⟩

/-- Claim C5: running the one-shot direct reconstruction on the sample
`sqrt(alpha_bar_t)*x0 + sqrt(1-alpha_bar_t)*noise`, with that exact noise,
recovers `x0` exactly, for any valid schedule and any `x0` in [0,1]. -/
theorem claim5_round_trip (ι : Type) (x0 noise : Sample ι) (t : ℕ)
    (beta : ℕ → ℝ) (hb : ∀ i, 0 ≤ beta i ∧ beta i < 1)
    (hx : ∀ idx, 0 ≤ x0 idx ∧ x0 idx ≤ 1) :
    reconstruct_image_from_noise
        (fun idx => Real.sqrt (get_alpha_bar beta t) * x0 idx +
          Real.sqrt (1 - get_alpha_bar beta t) * noise idx)
        noise t beta = x0 := by
  funext idx
  have hpos : 0 < get_alpha_bar beta t := get_alpha_bar_pos (fun i => (hb i).2) t
  have hle : get_alpha_bar beta t ≤ 1 :=
    get_alpha_bar_le_one (fun i => (hb i).1) (fun i => (hb i).2) t
  have hs_pos : 0 < Real.sqrt (get_alpha_bar beta t) := Real.sqrt_pos.mpr hpos
  have hs_le : Real.sqrt (get_alpha_bar beta t) ≤ 1 := Real.sqrt_le_one.mpr hle
  simp only [reconstruct_image_from_noise]
  rw [clip01_eq_self hs_pos.le hs_le]
  have hnum : Real.sqrt (get_alpha_bar beta t) * x0 idx +
      Real.sqrt (1 - get_alpha_bar beta t) * noise idx -
      noise idx * Real.sqrt (1 - get_alpha_bar beta t) =
      Real.sqrt (get_alpha_bar beta t) * x0 idx := by ring
  rw [hnum, mul_div_cancel_left₀ _ hs_pos.ne']

/-- Witness for C5 at `t = 1`, `beta = 1/2` everywhere, `x0 = 1/2`, `noise = 3`. -/
theorem claim5_witness :
    ((0:ℝ) ≤ 1/2 ∧ (1/2:ℝ) < 1) ∧
      reconstruct_image_from_noise (ι := Unit)
          (fun _ => Real.sqrt (get_alpha_bar (fun _ => 1/2) 1) * (1/2) +
            Real.sqrt (1 - get_alpha_bar (fun _ => 1/2) 1) * 3)
          (fun _ => 3) 1 (fun _ => 1/2) = fun _ => 1/2 :=
  ⟨⟨by norm_num, by norm_num⟩,
    claim5_round_trip Unit (fun _ => 1/2) (fun _ => 3) 1 (fun _ => 1/2)
      (fun _ => ⟨by norm_num, by norm_num⟩)
      (fun _ => ⟨by norm_num, by norm_num⟩)⟩

/-- Claim C9: on the trajectory-capturing success path, the first stored frame is
the raw input quantized (`*255`, uint8 cast) with no prior clamp — so values
outside [0,1] wrap modulo 256, e.g. value 2 is stored as 254 where clamping
first would store 255 — while every later frame is clamped before quantizing. -/
theorem claim9_trajectory_first_frame (ι : Type) (net : Predictor ι)
    (noisy : Sample ι) (t : ℕ) (beta : ℕ → ℝ) (s : ℕ) (ov : ℝ)
    (sigma : ℕ → ℝ) (z : ℕ → Sample ι) (h2 : 2 ≤ t / s) :
    reconstruct net noisy t beta s ov sigma true z =
        .ok (.seqs (quantRaw noisy ::
          (stridedStates net beta s ov sigma z noisy
            (stridedTimesteps t s)).map quantClip)) ∧
      toU8 ((2:ℝ) * 255) = 254 ∧ toU8 (clip01 (2:ℝ) * 255) = 255 := by
  refine ⟨?_, ?_, ?_⟩
  · have h0 : ¬ t / s = 0 := by omega
    have h1 : ¬ t / s = 1 := by omega
    simp only [reconstruct, if_neg h0, if_neg h1, if_true]
    rw [stridedRun_snd]
    simp
  · unfold toU8 trunc
    rw [if_pos (by norm_num : (0:ℝ) ≤ 2 * 255)]
    norm_num
    rfl
  · have hc : clip01 (2:ℝ) = 1 := by
      unfold clip01
      rw [min_eq_left (by norm_num : (1:ℝ) ≤ 2), max_eq_right zero_le_one]
    rw [hc]
    unfold toU8 trunc
    rw [if_pos (by norm_num : (0:ℝ) ≤ 1 * 255)]
    norm_num
    rfl

/-- Witness for C9 at a concrete trajectory run with `t = 2`, `step_size = 1`. -/
theorem claim9_witness :
    (2:ℕ) ≤ 2 / 1 ∧
      (reconstruct (ι := Unit) (fun _ _ => fun _ => 0) (fun _ => 2) 2
            (fun _ => 1/2) 1 (1/2) (fun _ => 0) true (fun _ _ => 0) =
          .ok (.seqs (quantRaw (fun _ => 2) ::
            (stridedStates (fun _ _ => fun _ => 0) (fun _ => 1/2) 1 (1/2)
              (fun _ => 0) (fun _ _ => 0) (fun _ => 2)
              (stridedTimesteps 2 1)).map quantClip)) ∧
        toU8 ((2:ℝ) * 255) = 254 ∧ toU8 (clip01 (2:ℝ) * 255) = 255) :=
  ⟨by norm_num,
    claim9_trajectory_first_frame Unit (fun _ _ => fun _ => 0) (fun _ => 2) 2
      (fun _ => 1/2) 1 (1/2) (fun _ => 0) (fun _ _ => 0) (by norm_num)⟩

theorem stridedStep_one_eq_unitStep (net : Predictor ι) (beta : ℕ → ℝ)
    (sigma : ℕ → ℝ) (z : ℕ → Sample ι) (hb : ∀ i, beta i < 1) {ti : ℕ}
    (hti : 1 ≤ ti) (x : Sample ι) :
    stridedStep net beta 1 0 sigma z x ti = unitStep net beta sigma z x ti := by
  obtain ⟨k, rfl⟩ : ∃ k, ti = k + 1 := ⟨ti - 1, by omega⟩
  have hpos : 0 < get_alpha_bar beta k := get_alpha_bar_pos hb k
  have hf : get_alpha_bar beta (k + 1) / get_alpha_bar beta (k + 1 - 1) =
      1 - beta (k + 1) := by
    have hk : k + 1 - 1 = k := rfl
    rw [hk, get_alpha_bar_succ, mul_comm, mul_div_assoc, div_self hpos.ne',
      mul_one]
  funext idx
  simp only [stridedStep, unitStep, hf]
  ring_nf

/-- Claim C3: for any fixed predictor, zero sigma, and valid schedule, the
strided sampler with `step_size = 1` and `overstep = 0` computes exactly the
fully-sequential unit-step sampler (including equal error behaviour). -/
theorem claim3_strided_eq_sequential (ι : Type) (net : Predictor ι)
    (noisy : Sample ι) (t : ℕ) (beta : ℕ → ℝ) (z : ℕ → Sample ι)
    (ht : 1 ≤ t) (hb : ∀ i, beta i < 1) :
    reconstruct net noisy t beta 1 0 (fun _ => 0) false z =
      (reconstruct_sequentially net noisy t beta (fun _ => 0) z).map
        RecResult.final := by
  rcases eq_or_lt_of_le ht with h1 | h2
  · subst h1
    simp [reconstruct, reconstruct_sequentially, Except.map]
  · have h0 : ¬ t / 1 = 0 := by rw [Nat.div_one]; omega
    have h1' : ¬ t / 1 = 1 := by rw [Nat.div_one]; omega
    have hseq : ¬ t ≤ 1 := by omega
    simp only [reconstruct, if_neg h0, if_neg h1', Bool.false_eq_true, if_false,
      reconstruct_sequentially, if_neg hseq, Except.map]
    rw [stridedRun_fst, stridedTimesteps_one]
    have hfold :
        (seqTimesteps t).foldl (stridedStep net beta 1 0 (fun _ => 0) z) noisy =
          (seqTimesteps t).foldl (unitStep net beta (fun _ => 0) z) noisy := by
      apply foldl_congr_mem
      intro ti hmem x
      exact stridedStep_one_eq_unitStep net beta _ z hb
        (mem_seqTimesteps.mp hmem).1 x
    rw [hfold]

/-- Witness for C3 at `t = 2` with the identity predictor and schedule 1/2. -/
theorem claim3_witness :
    ((1:ℕ) ≤ 2 ∧ ∀ i : ℕ, (fun _ : ℕ => (1/2:ℝ)) i < 1) ∧
      reconstruct (ι := Unit) (fun x _ => x) (fun _ => 0) 2 (fun _ => 1/2) 1 0
          (fun _ => 0) false (fun _ _ => 0) =
        (reconstruct_sequentially (ι := Unit) (fun x _ => x) (fun _ => 0) 2
            (fun _ => 1/2) (fun _ => 0) (fun _ _ => 0)).map RecResult.final :=
  ⟨⟨by norm_num, fun i => by norm_num⟩,
    claim3_strided_eq_sequential Unit (fun x _ => x) (fun _ => 0) 2
      (fun _ => 1/2) (fun _ _ => 0) (by norm_num) (fun i => by norm_num)⟩

theorem get_alpha_bar_uniform (k : ℕ) :
    get_alpha_bar (fun _ => (1/100 : ℝ)) k = (99/100 : ℝ) ^ k := by
  induction k with
  | zero => rfl
  | succ n ih => rw [get_alpha_bar_succ, ih, pow_succ]; norm_num

theorem strided_zero_net_eval (ι : Type) (noisy : Sample ι) (ov : ℝ)
    (z : ℕ → Sample ι) :
    reconstruct (fun _ _ => fun _ => 0) noisy 10 (fun _ => 1/100) 2 ov
        (fun _ => 0) false z =
      .ok (.final fun idx => clip01 (noisy idx * (100/99 : ℝ) ^ 4)) := by
  have h0 : ¬ (10 / 2 : ℕ) = 0 := by norm_num
  have h1 : ¬ (10 / 2 : ℕ) = 1 := by norm_num
  simp only [reconstruct, if_neg h0, if_neg h1, Bool.false_eq_true, if_false]
  rw [stridedRun_fst]
  have hts : stridedTimesteps 10 2 = [8, 6, 4, 2] := rfl
  rw [hts]
  have hsq : Real.sqrt ((9801/10000 : ℝ)) = 99/100 := by
    rw [show (9801/10000:ℝ) = (99/100:ℝ)^2 by norm_num,
      Real.sqrt_sq (by norm_num : (0:ℝ) ≤ 99/100)]
  have hstep : ∀ (x : Sample ι) (ti : ℕ),
      get_alpha_bar (fun _ => (1/100:ℝ)) ti /
          get_alpha_bar (fun _ => (1/100:ℝ)) (ti - 2) = (9801/10000 : ℝ) →
      stridedStep (fun _ _ => fun _ => 0) (fun _ => (1/100:ℝ)) 2 ov
          (fun _ => 0) z x ti = fun idx => x idx * (100/99 : ℝ) := by
    intro x ti hf
    funext idx
    simp only [stridedStep, hf, hsq]
    rw [div_eq_mul_inv]
    norm_num
  rw [List.foldl_cons, List.foldl_cons, List.foldl_cons, List.foldl_cons,
    List.foldl_nil]
  rw [hstep noisy 8 (by rw [get_alpha_bar_uniform, get_alpha_bar_uniform]; norm_num)]
  rw [hstep _ 6 (by rw [get_alpha_bar_uniform, get_alpha_bar_uniform]; norm_num)]
  rw [hstep _ 4 (by rw [get_alpha_bar_uniform, get_alpha_bar_uniform]; norm_num)]
  rw [hstep _ 2 (by rw [get_alpha_bar_uniform, get_alpha_bar_uniform]; norm_num)]
  have harg : ∀ v : ℝ,
      v * (100/99) * (100/99) * (100/99) * (100/99) = v * (100/99 : ℝ) ^ 4 := by
    intro v; ring
  refine congrArg _ (congrArg _ (funext fun idx => congrArg clip01 ?_))
  exact harg (noisy idx)

/-- Claim C1 (amended): for the schedule `beta = 1/100` at every timestep,
`start_t = 10`, `step_size = 2`, zero sigma and the all-zero noise predictor,
the strided sampler returns the input rescaled by `1/sqrt(alpha_bar[8])` —
not `alpha_bar[10]` — clamped to [0,1]: the loop starts at
`(start_t // step_size - 1) * step_size = 8`. -/
theorem claim1_strided_rescale_amended (ι : Type) (noisy : Sample ι) (ov : ℝ)
    (z : ℕ → Sample ι) :
    reconstruct (fun _ _ => fun _ => 0) noisy 10 (fun _ => 1/100) 2 ov
        (fun _ => 0) false z =
      .ok (.final fun idx =>
        clip01 (noisy idx *
          (1 / Real.sqrt (get_alpha_bar (fun _ => 1/100) 8)))) := by
  rw [strided_zero_net_eval]
  have h8 : Real.sqrt (get_alpha_bar (fun _ => (1/100:ℝ)) 8) = (99/100:ℝ)^4 := by
    rw [get_alpha_bar_uniform, show ((99/100:ℝ))^8 = ((99/100:ℝ)^4)^2 by ring,
      Real.sqrt_sq (by positivity)]
  rw [h8, show (1 / (99/100:ℝ)^4) = (100/99:ℝ)^4 by norm_num]

/-- Counterexample to C1 as stated: at the constant input 1/2 the sampler's
output is the rescaling by `1/sqrt(alpha_bar[8])`, which differs from the
claimed rescaling by `1/sqrt(alpha_bar[10])`. -/
theorem claim1_counterexample :
    reconstruct (ι := Unit) (fun _ _ => fun _ => 0) (fun _ => 1/2) 10
        (fun _ => 1/100) 2 (1/2) (fun _ => 0) false (fun _ _ => 0) ≠
      .ok (.final fun _ =>
        clip01 ((1/2 : ℝ) *
          (1 / Real.sqrt (get_alpha_bar (fun _ => 1/100) 10)))) := by
  rw [strided_zero_net_eval]
  intro hEq
  have h10 : Real.sqrt (get_alpha_bar (fun _ => (1/100:ℝ)) 10) = (99/100:ℝ)^5 := by
    rw [get_alpha_bar_uniform, show ((99/100:ℝ))^10 = ((99/100:ℝ)^5)^2 by ring,
      Real.sqrt_sq (by positivity)]
  rw [h10] at hEq
  simp only [Except.ok.injEq, RecResult.final.injEq] at hEq
  have h2 := congrFun hEq ()
  simp only [] at h2
  rw [clip01_eq_self (by norm_num) (by norm_num),
    clip01_eq_self (by norm_num) (by norm_num)] at h2
  norm_num at h2

end Reconstruction
